import Mathlib

/-!
# Broadcast server of `gossip-glomers` (`src/broadcast/main.go`)

A shallow embedding of the broadcast node: its state (`server`), its handlers
(`HandleBroadcast`, `HandleRead`, `HandleTopology`), the gossip engine
(`Gossip`, `GossipResponse`, `HandleBroadcastOk`) and the retry tick
(`GossipMissedUpdates`), followed by the properties proved about them.

Go maps are finite maps with pairwise distinct keys.  They are kept as an
association list; the order of the list stands for the (unspecified) order in
which `range` visits the map, so a statement proved for every map is proved
for every iteration order.  A `map[int]bool` keeps its flags.  The maps stored
in `missedUpdates` are never nil: `Gossip` makes one before it stores under a
new neighbor (line 86) and `HandleBroadcastOk` stores back only a map of
positive length (lines 114-119).

The calls of the transport library are inputs and effects: the result of
decoding a body and the error of `s.n.RPC` are given to the functions, and
`s.n.Reply`, `s.n.RPC`, `go s.Gossip` and the write to standard error are
recorded in the order they are made.  Every function is a state transformer
that runs to its end before the next call starts.
-/

namespace GossipGlomers

/-! ## Go maps -/

/-- Lookup in an association list: the value stored under `k`, if any. -/
def getEntry {K V : Type} [DecidableEq K] (k : K) : List (K × V) → Option V
  | [] => none
  | (k', v') :: t => if k' = k then some v' else getEntry k t

/-- Assignment `m[k] = v` on an association list: overwrite the value stored
under `k` where it is, or add a new entry when `k` is absent. -/
def setEntry {K V : Type} [DecidableEq K] (k : K) (v : V) : List (K × V) → List (K × V)
  | [] => [(k, v)]
  | (k', v') :: t => if k' = k then (k, v) :: t else (k', v') :: setEntry k v t

/-- Removal `delete(m, k)` on an association list. -/
def delEntry {K V : Type} [DecidableEq K] (k : K) : List (K × V) → List (K × V)
  | [] => []
  | (k', v') :: t => if k' = k then delEntry k t else (k', v') :: delEntry k t

/-- A Go map `map[K]V`: finitely many entries with pairwise distinct keys.
A nil map and an empty map are both the map without entries. -/
structure GoMap (K V : Type) [DecidableEq K] where
  /-- The entries, in the order `range` visits them. -/
  entries : List (K × V)
  /-- No key occurs twice. -/
  nodupKeys : (entries.map Prod.fst).Nodup

namespace GoMap

variable {K V : Type} [DecidableEq K]

instance [DecidableEq V] : DecidableEq (GoMap K V) := fun a b =>
  decidable_of_iff (a.entries = b.entries)
    ⟨fun h => by cases a; cases b; cases h; rfl, fun h => h ▸ rfl⟩

/-- The map without entries: `make(map[K]V)`, also the nil map. -/
def empty : GoMap K V := ⟨[], List.nodup_nil⟩

/-- The comma-ok lookup `v, ok := m[k]`. -/
def get (m : GoMap K V) (k : K) : Option V := getEntry k m.entries

/-- The assignment `m[k] = v`. -/
def set (m : GoMap K V) (k : K) (v : V) : GoMap K V :=
  ⟨setEntry k v m.entries, by
    have keys : ∀ l : List (K × V), (setEntry k v l).map Prod.fst =
        if k ∈ l.map Prod.fst then l.map Prod.fst else l.map Prod.fst ++ [k] := by
      intro l
      induction l with
      | nil => simp [setEntry]
      | cons e t ih =>
        obtain ⟨k', v'⟩ := e
        by_cases h : k' = k
        · subst h; simp [setEntry]
        · have h' : ¬ k = k' := fun e => h e.symm
          by_cases hm : k ∈ t.map Prod.fst
          · simp only [setEntry, h, if_false, List.map_cons, ih, hm, if_true, List.mem_cons,
              or_true]
          · simp only [setEntry, h, if_false, List.map_cons, ih, hm, List.mem_cons, h', or_self,
              List.cons_append]
    rw [keys]
    split
    · exact m.nodupKeys
    · rename_i hk
      rw [List.nodup_append]
      refine ⟨m.nodupKeys, List.nodup_singleton k, ?_⟩
      intro a ha hb
      rw [List.mem_singleton] at hb
      exact hk (hb ▸ ha)⟩

/-- The statement `delete(m, k)`. -/
def delete (m : GoMap K V) (k : K) : GoMap K V :=
  ⟨delEntry k m.entries, by
    have sub : ∀ l : List (K × V), ((delEntry k l).map Prod.fst).Sublist (l.map Prod.fst) := by
      intro l
      induction l with
      | nil => simp [delEntry]
      | cons e t ih =>
        obtain ⟨k', v'⟩ := e
        by_cases h1 : k' = k
        · simpa [delEntry, h1] using ih.cons k
        · simpa [delEntry, h1] using ih.cons₂ k'
    exact (sub m.entries).nodup m.nodupKeys⟩

/-- The builtin `len(m)`. -/
def len (m : GoMap K V) : Nat := m.entries.length

/-- The keys of the map, in the order `range` visits them. -/
def keys (m : GoMap K V) : List K := m.entries.map Prod.fst

/-- Whether `k` is a key of the map. -/
def contains (m : GoMap K V) (k : K) : Bool := (m.get k).isSome

end GoMap

/-- The index expression `m[k]` on a `map[int]bool`: `false` for an absent key. -/
def flag (m : GoMap Int Bool) (k : Int) : Bool := (m.get k).getD false

/-! ## Data model -/

/-- The type `Topology map[string][]string`. -/
abbrev Topology := GoMap String (List String)

/-- The index expression `t[id]` on a `Topology`: the nil slice for an absent key. -/
def neighbors (t : Topology) (id : String) : List String := (t.get id).getD []

/-- The struct `server`.  The field `n *maelstrom.Node` is represented by the
node id that `s.n.ID()` returns; the mutex `mu` carries no data. -/
structure server where
  /-- The value of `s.n.ID()`. -/
  id : String
  topology : Topology
  messages : List Int
  seen : GoMap Int Bool
  missedUpdates : GoMap String (GoMap Int Bool)
deriving DecidableEq

/-- The server built in `main`: `seen` and `missedUpdates` are fresh maps,
`messages` and `topology` have their zero values. -/
def newServer (id : String) : server :=
  { id := id, topology := GoMap.empty, messages := [], seen := GoMap.empty,
    missedUpdates := GoMap.empty }

/-- The struct `Broadcast`, the decoded body of a broadcast request. -/
structure Broadcast where
  Message : Int
deriving DecidableEq

/-- A `maelstrom.Message` as the handlers use it: its source, the result of
`msg.Type()`, and what `json.Unmarshal` makes of its body at each of the two
decoding sites (`none` when it returns an error). -/
structure Message where
  Src : String
  /-- The value of `msg.Type()`. -/
  type : String
  /-- The outcome of `json.Unmarshal(msg.Body, &msgBody)` in `HandleBroadcast`. -/
  asBroadcast : Option Broadcast
  /-- The field `msgBody.Topology` after `json.Unmarshal` in `HandleTopology`. -/
  asTopology : Option Topology

/-- What a call does to the outside world. -/
inductive Effect where
  /-- The call `s.n.Reply(msg, body)`: the node replied to, the reply body's
  `type`, and its `messages` field when it has one. -/
  | Reply (dest : String) (type : String) (messages : Option (List Int))
  /-- The statement `go s.Gossip(dest, message)`. -/
  | goGossip (dest : String) (message : Int)
  /-- The call `s.n.RPC(destination, body, s.GossipResponse(value))` with
  `body = {"type": type, "message": message}`. -/
  | RPC (destination : String) (type : String) (message : Int) (value : Int)
  /-- The call `os.Stderr.WriteString(text)`. -/
  | stderr (text : String)
deriving DecidableEq

/-- How a handler returns. -/
inductive Return where
  /-- The handler returned the error of `json.Unmarshal`. -/
  | decodeError
  /-- The handler returned what `s.n.Reply` returned. -/
  | replyResult
  /-- The function returned `nil` or has no result. -/
  | done
deriving DecidableEq

/-- The outcome of a call: the state it leaves, what it did, how it returned. -/
structure Outcome where
  state : server
  effects : List Effect
  ret : Return

/-! ## The gossip engine -/

/-- The method `server.Gossip` (lines 83-96).  `rpcErr` is the error that
`s.n.RPC` returned, `none` for nil. -/
def Gossip (s : server) (destination : String) (message : Int) (rpcErr : Option String) :
    Outcome :=
  let mu1 :=
    match s.missedUpdates.get destination with
    | none => s.missedUpdates.set destination GoMap.empty
    | some _ => s.missedUpdates
  let mu2 :=
    mu1.set destination (((mu1.get destination).getD GoMap.empty).set message true)
  let send := Effect.RPC destination "broadcast" message message
  { state := { s with missedUpdates := mu2 }
    effects :=
      match rpcErr with
      | none => [send]
      | some err => [send, Effect.stderr ("ERROR, " ++ err)]
    ret := Return.done }

/-- The method `server.HandleBroadcastOk` (lines 109-120). -/
def HandleBroadcastOk (s : server) (node : String) (message : Int) : server :=
  match s.missedUpdates.get node with
  | none => s
  | some messagesMissed =>
    if messagesMissed.len = 0 then s
    else { s with missedUpdates := s.missedUpdates.set node (messagesMissed.delete message) }

/-- The closure that `server.GossipResponse(value)` returns (lines 98-107),
applied to a response message. -/
def GossipResponse (value : Int) (s : server) (msg : Message) : Outcome :=
  if msg.type ≠ "broadcast_ok" then { state := s, effects := [], ret := Return.done }
  else { state := HandleBroadcastOk s msg.Src value, effects := [], ret := Return.done }

/-- The inner loop of `GossipMissedUpdates`: `for update := range updates`. -/
def gossipUpdates (rpcErr : String → Int → Option String) (node : String) :
    List Int → server → List Effect → server × List Effect
  | [], s, out => (s, out)
  | update :: rest, s, out =>
    let o := Gossip s node update (rpcErr node update)
    gossipUpdates rpcErr node rest o.state (out ++ o.effects)

/-- The outer loop of `GossipMissedUpdates`: `for node, updates := range s.missedUpdates`. -/
def gossipNodes (rpcErr : String → Int → Option String) :
    List (String × GoMap Int Bool) → server → List Effect → server × List Effect
  | [], s, out => (s, out)
  | (node, updates) :: rest, s, out =>
    let r := gossipUpdates rpcErr node updates.keys s out
    gossipNodes rpcErr rest r.1 r.2

/-- The method `server.GossipMissedUpdates` (lines 122-128), one retry tick.
The loops visit the entries the table has when the tick starts; every
assignment made by `Gossip` meanwhile overwrites an entry that is already
there.  `rpcErr node update` is the error of the `s.n.RPC` call for that pair. -/
def GossipMissedUpdates (s : server) (rpcErr : String → Int → Option String) : Outcome :=
  let r := gossipNodes rpcErr s.missedUpdates.entries s []
  { state := r.1, effects := r.2, ret := Return.done }

/-! ## The handlers -/

/-- The loop of `HandleBroadcast` over `s.topology[s.n.ID()]` (lines 73-78). -/
def fanOut (src : String) (message : Int) : List String → List Effect
  | [] => []
  | dest :: rest =>
    if dest = src then fanOut src message rest
    else Effect.goGossip dest message :: fanOut src message rest

/-- The method `server.HandleBroadcast` (lines 54-81). -/
def HandleBroadcast (s : server) (msg : Message) : Outcome :=
  match msg.asBroadcast with
  | none => { state := s, effects := [], ret := Return.decodeError }
  | some msgBody =>
    let reply := Effect.Reply msg.Src "broadcast_ok" none
    let message := msgBody.Message
    let seen := flag s.seen message == true
    let s1 := { s with seen := s.seen.set message true }
    if seen then { state := s1, effects := [reply], ret := Return.replyResult }
    else
      let s2 := { s1 with messages := s1.messages ++ [message] }
      { state := s2
        effects := fanOut msg.Src message (neighbors s2.topology s2.id) ++ [reply]
        ret := Return.replyResult }

/-- The method `server.HandleTopology` (lines 130-141). -/
def HandleTopology (s : server) (msg : Message) : Outcome :=
  match msg.asTopology with
  | none => { state := s, effects := [], ret := Return.decodeError }
  | some topology =>
    { state := { s with topology := topology }
      effects := [Effect.Reply msg.Src "topology_ok" none]
      ret := Return.replyResult }

/-- The method `server.HandleRead` (lines 143-149). -/
def HandleRead (s : server) (msg : Message) : Outcome :=
  { state := s
    effects := [Effect.Reply msg.Src "read_ok" (some s.messages)]
    ret := Return.replyResult }

/-! ## Runs -/

/-- Whether `v` is in `missedUpdates[n]`: the value is a key of the neighbor's
map (the nil map when the neighbor has no entry). -/
def pending (s : server) (n : String) (v : Int) : Bool :=
  ((s.missedUpdates.get n).getD GoMap.empty).contains v

/-- One call on the server, made by the transport (a handler or a response
callback), by a goroutine started in `HandleBroadcast`, or by the ticker. -/
inductive Step where
  | handleBroadcast (msg : Message)
  | handleRead (msg : Message)
  | handleTopology (msg : Message)
  | gossip (destination : String) (message : Int) (rpcErr : Option String)
  | gossipResponse (value : Int) (msg : Message)
  | handleBroadcastOk (node : String) (message : Int)
  | gossipMissedUpdates (rpcErr : String → Int → Option String)

/-- The state after one call. -/
def step (s : server) : Step → server
  | .handleBroadcast msg => (HandleBroadcast s msg).state
  | .handleRead msg => (HandleRead s msg).state
  | .handleTopology msg => (HandleTopology s msg).state
  | .gossip destination message rpcErr => (Gossip s destination message rpcErr).state
  | .gossipResponse value msg => (GossipResponse value s msg).state
  | .handleBroadcastOk node message => HandleBroadcastOk s node message
  | .gossipMissedUpdates rpcErr => (GossipMissedUpdates s rpcErr).state

/-- The state after a sequence of calls, run one at a time. -/
def run (s : server) : List Step → server
  | [] => s
  | st :: rest => run (step s st) rest

/-- Whether a step is a `broadcast_ok` acknowledgment for exactly the pair
`(n, v)`: the call `HandleBroadcastOk(n, v)`, made directly or by a response
callback bound to `v` that receives a `broadcast_ok` message from `n`. -/
def isAckFor (n : String) (v : Int) : Step → Bool
  | .handleBroadcastOk node message => decide (node = n ∧ message = v)
  | .gossipResponse value msg => decide (msg.type = "broadcast_ok" ∧ msg.Src = n ∧ value = v)
  | _ => false

/-- The outbound requests among the effects of a call: destination and value
of each `s.n.RPC` call, in order. -/
def requests : List Effect → List (String × Int)
  | [] => []
  | Effect.RPC destination _ message _ :: rest => (destination, message) :: requests rest
  | _ :: rest => requests rest

/-- The pairs `(neighbor, value)` of a pending table, in the order the loops of
`GossipMissedUpdates` visit them. -/
def pairs : List (String × GoMap Int Bool) → List (String × Int)
  | [] => []
  | (node, updates) :: rest => updates.keys.map (fun u => (node, u)) ++ pairs rest

/-- Every flag stored in the pending table is `true`. -/
def flagsTrue (mu : GoMap String (GoMap Int Bool)) : Bool :=
  mu.entries.all (fun e => e.2.entries.all (fun f => f.2))

/-- The neighbors of a pending table and the values recorded for each, in
iteration order: the table without its flags. -/
def shape (mu : GoMap String (GoMap Int Bool)) : List (String × List Int) :=
  mu.entries.map (fun e => (e.1, e.2.keys))

/-- One round of the retry loops on an accumulator of state and effects. -/
def resend (rpcErr : String → Int → Option String) (acc : server × List Effect)
    (p : String × Int) : server × List Effect :=
  ((Gossip acc.1 p.1 p.2 (rpcErr p.1 p.2)).state,
    acc.2 ++ (Gossip acc.1 p.1 p.2 (rpcErr p.1 p.2)).effects)

/-- The log and the seen set agree: `messages` has no duplicate and holds
exactly the values whose flag in `seen` is `true`. -/
def logInv (s : server) : Prop :=
  s.messages.Nodup ∧ ∀ v, v ∈ s.messages ↔ flag s.seen v = true

/-! ## Lock discipline -/

/-- The containers of the server that the handlers share. -/
inductive Container where
  | seen
  | messages
  | missedUpdates
  | topology
deriving DecidableEq

/-- What one goroutine does to the mutex and to the containers, in program
order. -/
inductive Access where
  /-- The call `s.mu.Lock()`. -/
  | Lock
  /-- The call `s.mu.Unlock()`, also when deferred. -/
  | Unlock
  | read (c : Container)
  | write (c : Container)
deriving DecidableEq

/-- Whether a container is one of `seen`, `messages` and `missedUpdates`. -/
def guarded : Container → Bool
  | .seen => true
  | .messages => true
  | .missedUpdates => true
  | .topology => false

/-- Whether every read and write of a guarded container in the sequence
happens between `Lock` and `Unlock`; `held` says whether the goroutine holds
the mutex at the start. -/
def lockHeldThroughout : Bool → List Access → Bool
  | _, [] => true
  | _, Access.Lock :: rest => lockHeldThroughout true rest
  | _, Access.Unlock :: rest => lockHeldThroughout false rest
  | held, Access.read c :: rest => (held || !guarded c) && lockHeldThroughout held rest
  | held, Access.write c :: rest => (held || !guarded c) && lockHeldThroughout held rest

/-- The accesses of `HandleBroadcast` (lines 63-73): the test-and-insert on
`seen` under the mutex, then for a new value the append to `messages` and the
read of `topology`. -/
def HandleBroadcastAccesses (s : server) (msg : Message) : List Access :=
  match msg.asBroadcast with
  | none => []
  | some msgBody =>
    [Access.Lock, Access.read Container.seen, Access.write Container.seen, Access.Unlock] ++
      if flag s.seen msgBody.Message == true then []
      else [Access.read Container.messages, Access.write Container.messages,
        Access.read Container.topology]

/-- The accesses of `Gossip` (lines 84-89). -/
def GossipAccesses (s : server) (destination : String) : List Access :=
  [Access.Lock, Access.read Container.missedUpdates] ++
    (match s.missedUpdates.get destination with
      | none => [Access.write Container.missedUpdates]
      | some _ => []) ++
    [Access.read Container.missedUpdates, Access.write Container.missedUpdates, Access.Unlock]

/-- The accesses of `HandleBroadcastOk` (lines 110-119); the deferred
`Unlock` runs at either return. -/
def HandleBroadcastOkAccesses (s : server) (node : String) : List Access :=
  [Access.Lock, Access.read Container.missedUpdates] ++
    (match s.missedUpdates.get node with
      | none => []
      | some messagesMissed =>
        if messagesMissed.len = 0 then []
        else [Access.write Container.missedUpdates, Access.write Container.missedUpdates]) ++
    [Access.Unlock]

/-- The accesses of `HandleRead` (line 146). -/
def HandleReadAccesses : List Access := [Access.read Container.messages]

/-- The accesses of the inner loop of `GossipMissedUpdates` (lines 124-126):
each round reads the neighbor's map and calls `Gossip`. -/
def gossipUpdatesAccesses (node : String) : List Int → server → List Access
  | [], _ => []
  | update :: rest, s =>
    Access.read Container.missedUpdates :: GossipAccesses s node ++
      gossipUpdatesAccesses node rest (Gossip s node update none).state

/-- The accesses of the outer loop of `GossipMissedUpdates` (line 123): each
round reads the table and runs the inner loop. -/
def gossipNodesAccesses : List (String × GoMap Int Bool) → server → List Access
  | [], _ => []
  | (node, updates) :: rest, s =>
    Access.read Container.missedUpdates :: gossipUpdatesAccesses node updates.keys s ++
      gossipNodesAccesses rest (gossipUpdates (fun _ _ => none) node updates.keys s []).1

/-- The accesses of `GossipMissedUpdates` (lines 122-128), one retry tick: the
range expression `s.missedUpdates` is read, then the loops run. -/
def GossipMissedUpdatesAccesses (s : server) : List Access :=
  Access.read Container.missedUpdates :: gossipNodesAccesses s.missedUpdates.entries s

/-! ## Facts about Go maps -/

section MapFacts

variable {K V : Type} [DecidableEq K]

theorem getEntry_setEntry_self (k : K) (v : V) (l : List (K × V)) :
    getEntry k (setEntry k v l) = some v := by
  induction l with
  | nil => simp [setEntry, getEntry]
  | cons e t ih =>
    obtain ⟨k', v'⟩ := e
    by_cases h : k' = k
    · simp [setEntry, getEntry, h]
    · simp [setEntry, getEntry, h, ih]

theorem getEntry_setEntry_ne {k k' : K} (h : k' ≠ k) (v : V) (l : List (K × V)) :
    getEntry k' (setEntry k v l) = getEntry k' l := by
  induction l with
  | nil => simp [setEntry, getEntry, h.symm]
  | cons e t ih =>
    obtain ⟨k'', v''⟩ := e
    by_cases h1 : k'' = k
    · subst h1
      simp [setEntry, getEntry, h.symm]
    · by_cases h2 : k'' = k'
      · subst h2
        simp [setEntry, getEntry, h1]
      · simp [setEntry, getEntry, h1, h2, ih]

theorem setEntry_of_getEntry {k : K} {v : V} {l : List (K × V)} (h : getEntry k l = some v) :
    setEntry k v l = l := by
  induction l with
  | nil => simp [getEntry] at h
  | cons e t ih =>
    obtain ⟨k', v'⟩ := e
    by_cases h1 : k' = k
    · subst h1
      simp only [getEntry, if_true, Option.some.injEq] at h
      simp [setEntry, h]
    · simp only [getEntry, h1, if_false] at h
      simp [setEntry, h1, ih h]

theorem getEntry_delEntry_self (k : K) (l : List (K × V)) : getEntry k (delEntry k l) = none := by
  induction l with
  | nil => simp [delEntry, getEntry]
  | cons e t ih =>
    obtain ⟨k', v'⟩ := e
    by_cases h1 : k' = k
    · simp [delEntry, h1, ih]
    · simp [delEntry, h1, ih, getEntry]

theorem getEntry_delEntry_ne {k k' : K} (h : k' ≠ k) (l : List (K × V)) :
    getEntry k' (delEntry k l) = getEntry k' l := by
  induction l with
  | nil => simp [delEntry, getEntry]
  | cons e t ih =>
    obtain ⟨k'', v''⟩ := e
    by_cases h1 : k'' = k
    · subst h1
      simp [delEntry, ih, getEntry, h.symm]
    · by_cases h2 : k'' = k'
      · subst h2
        simp [delEntry, h1, getEntry]
      · simp [delEntry, h1, getEntry, h2, ih]

theorem delEntry_of_getEntry_none {k : K} {l : List (K × V)} (h : getEntry k l = none) :
    delEntry k l = l := by
  induction l with
  | nil => simp [delEntry]
  | cons e t ih =>
    obtain ⟨k', v'⟩ := e
    by_cases h1 : k' = k
    · simp [getEntry, h1] at h
    · simp only [getEntry, h1, if_false] at h
      simp [delEntry, h1, ih h]

theorem getEntry_isSome_iff (k : K) (l : List (K × V)) :
    (getEntry k l).isSome = true ↔ k ∈ l.map Prod.fst := by
  induction l with
  | nil => simp [getEntry]
  | cons e t ih =>
    obtain ⟨k', v'⟩ := e
    by_cases h1 : k' = k
    · simp [getEntry, h1]
    · have h2 : ¬ k = k' := fun e => h1 e.symm
      simp [getEntry, h1, h2, ih]

namespace GoMap

theorem ext_entries {a b : GoMap K V} (h : a.entries = b.entries) : a = b := by
  cases a; cases b; cases h; rfl

@[simp]
theorem get_empty (k : K) : (GoMap.empty : GoMap K V).get k = none := rfl

@[simp]
theorem get_set_self (m : GoMap K V) (k : K) (v : V) : (m.set k v).get k = some v :=
  getEntry_setEntry_self k v m.entries

theorem get_set_ne (m : GoMap K V) {k k' : K} (h : k' ≠ k) (v : V) :
    (m.set k v).get k' = m.get k' :=
  getEntry_setEntry_ne h v m.entries

theorem set_of_get {m : GoMap K V} {k : K} {v : V} (h : m.get k = some v) : m.set k v = m :=
  ext_entries (setEntry_of_getEntry h)

@[simp]
theorem get_delete_self (m : GoMap K V) (k : K) : (m.delete k).get k = none :=
  getEntry_delEntry_self k m.entries

theorem get_delete_ne (m : GoMap K V) {k k' : K} (h : k' ≠ k) :
    (m.delete k).get k' = m.get k' :=
  getEntry_delEntry_ne h m.entries

theorem delete_of_get_none {m : GoMap K V} {k : K} (h : m.get k = none) : m.delete k = m :=
  ext_entries (delEntry_of_getEntry_none h)

theorem contains_iff_mem_keys (m : GoMap K V) (k : K) : m.contains k = true ↔ k ∈ m.keys :=
  getEntry_isSome_iff k m.entries

theorem get_set (m : GoMap K V) (k k' : K) (v : V) :
    (m.set k v).get k' = if k' = k then some v else m.get k' := by
  by_cases h : k' = k
  · subst h; simp
  · simp [h, get_set_ne m h]

theorem get_delete (m : GoMap K V) (k k' : K) :
    (m.delete k).get k' = if k' = k then none else m.get k' := by
  by_cases h : k' = k
  · subst h; simp
  · simp [h, get_delete_ne m h]

end GoMap

end MapFacts

/-! ## Facts about the gossip engine -/

theorem GoMap.len_eq_zero {K V : Type} [DecidableEq K] {m : GoMap K V} (h : m.len = 0) :
    m = GoMap.empty := by
  apply GoMap.ext_entries
  simpa [GoMap.len, GoMap.empty] using h

theorem GoMap.delete_empty {K V : Type} [DecidableEq K] (k : K) :
    (GoMap.empty : GoMap K V).delete k = GoMap.empty := rfl

theorem GoMap.contains_set {K V : Type} [DecidableEq K] (m : GoMap K V) (k k' : K) (v : V) :
    (m.set k v).contains k' = (decide (k' = k) || m.contains k') := by
  unfold GoMap.contains
  rw [GoMap.get_set]
  by_cases h : k' = k <;> simp [h]

theorem GoMap.contains_delete {K V : Type} [DecidableEq K] (m : GoMap K V) (k k' : K) :
    (m.delete k).contains k' = (!decide (k' = k) && m.contains k') := by
  unfold GoMap.contains
  rw [GoMap.get_delete]
  by_cases h : k' = k <;> simp [h]

/-- The pending table after `Gossip`, read at any neighbor. -/
theorem Gossip_missedUpdates_get (s : server) (n : String) (v : Int) (e : Option String)
    (n' : String) :
    (Gossip s n v e).state.missedUpdates.get n' =
      if n' = n then some (((s.missedUpdates.get n).getD GoMap.empty).set v true)
      else s.missedUpdates.get n' := by
  unfold Gossip
  cases hget : s.missedUpdates.get n with
  | none =>
    simp only [GoMap.get_set_self, Option.getD_some, Option.getD_none]
    rw [GoMap.get_set, GoMap.get_set]
    by_cases h : n' = n <;> simp [h]
  | some m =>
    simp only [hget, Option.getD_some]
    rw [GoMap.get_set]

/-- The pending table after `HandleBroadcastOk`, read at any neighbor. -/
theorem HandleBroadcastOk_missedUpdates_get (s : server) (n : String) (v : Int) (n' : String) :
    (HandleBroadcastOk s n v).missedUpdates.get n' =
      if n' = n then (s.missedUpdates.get n).map (fun m => m.delete v)
      else s.missedUpdates.get n' := by
  unfold HandleBroadcastOk
  cases hget : s.missedUpdates.get n with
  | none =>
    by_cases h : n' = n
    · subst h; simp [hget]
    · simp [h]
  | some m =>
    by_cases hl : m.len = 0
    · simp only [hl, if_true]
      by_cases h : n' = n
      · subst h
        simp [hget, GoMap.len_eq_zero hl, GoMap.delete_empty]
      · simp [h]
    · simp only [hl, if_false]
      rw [GoMap.get_set]
      by_cases h : n' = n <;> simp [h]

theorem pending_Gossip (s : server) (n : String) (v : Int) (e : Option String)
    (n' : String) (v' : Int) :
    pending (Gossip s n v e).state n' v' = (pending s n' v' || decide (n' = n ∧ v' = v)) := by
  unfold pending
  rw [Gossip_missedUpdates_get]
  by_cases h : n' = n
  · subst h
    simp only [if_true, Option.getD_some, GoMap.contains_set, true_and]
    rw [Bool.or_comm]
  · simp [h]

theorem pending_HandleBroadcastOk (s : server) (n : String) (v : Int) (n' : String) (v' : Int) :
    pending (HandleBroadcastOk s n v) n' v' = (pending s n' v' && !decide (n' = n ∧ v' = v)) := by
  unfold pending
  rw [HandleBroadcastOk_missedUpdates_get]
  by_cases h : n' = n
  · subst h
    cases hget : s.missedUpdates.get n' with
    | none => simp [GoMap.contains]
    | some m =>
      simp only [if_true, Option.map_some', Option.getD_some, GoMap.contains_delete, true_and]
      rw [Bool.and_comm]
  · simp [h]

/-- `Gossip` on a pair stored with flag `true` changes nothing. -/
theorem Gossip_state_of_stored (s : server) (n : String) (v : Int) (e : Option String)
    (m : GoMap Int Bool) (hn : s.missedUpdates.get n = some m) (hv : m.get v = some true) :
    (Gossip s n v e).state = s := by
  unfold Gossip
  simp only [hn, Option.getD_some]
  rw [GoMap.set_of_get hv, GoMap.set_of_get hn]

theorem requests_append (a b : List Effect) : requests (a ++ b) = requests a ++ requests b := by
  induction a with
  | nil => rfl
  | cons x t ih => cases x <;> simp [requests, ih]

theorem requests_Gossip (s : server) (n : String) (v : Int) (e : Option String) :
    requests (Gossip s n v e).effects = [(n, v)] := by
  cases e <;> rfl

theorem gossipUpdates_eq_foldl (rpcErr : String → Int → Option String) (node : String)
    (l : List Int) (s : server) (out : List Effect) :
    gossipUpdates rpcErr node l s out =
      (l.map (fun u => (node, u))).foldl (resend rpcErr) (s, out) := by
  induction l generalizing s out with
  | nil => rfl
  | cons u t ih => simp only [gossipUpdates, List.map_cons, List.foldl_cons, ih]; rfl

theorem gossipNodes_eq_foldl (rpcErr : String → Int → Option String)
    (l : List (String × GoMap Int Bool)) (s : server) (out : List Effect) :
    gossipNodes rpcErr l s out = (pairs l).foldl (resend rpcErr) (s, out) := by
  induction l generalizing s out with
  | nil => rfl
  | cons e t ih =>
    obtain ⟨node, updates⟩ := e
    simp only [gossipNodes, pairs, List.foldl_append, ih, gossipUpdates_eq_foldl]

theorem requests_foldl_resend (rpcErr : String → Int → Option String) (l : List (String × Int))
    (acc : server × List Effect) :
    requests (l.foldl (resend rpcErr) acc).2 = requests acc.2 ++ l := by
  induction l generalizing acc with
  | nil => simp
  | cons p t ih =>
    simp only [List.foldl_cons, ih, resend, requests_append, requests_Gossip]
    simp

theorem pending_foldl_resend (rpcErr : String → Int → Option String)
    (l : List (String × Int)) (acc : server × List Effect)
    (hl : ∀ p ∈ l, pending acc.1 p.1 p.2 = true) (n : String) (v : Int) :
    pending (l.foldl (resend rpcErr) acc).1 n v = pending acc.1 n v := by
  induction l generalizing acc with
  | nil => rfl
  | cons p t ih =>
    have hp : pending acc.1 p.1 p.2 = true := hl p (List.mem_cons_self _ _)
    have key : ∀ n' v', pending (resend rpcErr acc p).1 n' v' = pending acc.1 n' v' := by
      intro n' v'
      simp only [resend, pending_Gossip]
      by_cases h : n' = p.1 ∧ v' = p.2
      · obtain ⟨h1, h2⟩ := h
        subst h1 h2
        simp [hp]
      · simp [h]
    simp only [List.foldl_cons]
    rw [ih, key]
    intro q hq
    rw [key]
    exact hl q (List.mem_cons_of_mem _ hq)

theorem state_foldl_resend (rpcErr : String → Int → Option String)
    (l : List (String × Int)) (acc : server × List Effect)
    (hl : ∀ p ∈ l, ∃ m, acc.1.missedUpdates.get p.1 = some m ∧ m.get p.2 = some true) :
    (l.foldl (resend rpcErr) acc).1 = acc.1 := by
  induction l generalizing acc with
  | nil => rfl
  | cons p t ih =>
    obtain ⟨m, hn, hv⟩ := hl p (List.mem_cons_self _ _)
    have key : (resend rpcErr acc p).1 = acc.1 := Gossip_state_of_stored acc.1 p.1 p.2 (rpcErr p.1 p.2) m hn hv
    simp only [List.foldl_cons]
    rw [ih, key]
    intro q hq
    rw [key]
    exact hl q (List.mem_cons_of_mem _ hq)

theorem fields_foldl_resend (rpcErr : String → Int → Option String)
    (l : List (String × Int)) (acc : server × List Effect) :
    (l.foldl (resend rpcErr) acc).1.messages = acc.1.messages ∧
    (l.foldl (resend rpcErr) acc).1.seen = acc.1.seen ∧
    (l.foldl (resend rpcErr) acc).1.topology = acc.1.topology ∧
    (l.foldl (resend rpcErr) acc).1.id = acc.1.id := by
  induction l generalizing acc with
  | nil => simp
  | cons p t ih =>
    simp only [List.foldl_cons]
    obtain ⟨h1, h2, h3, h4⟩ := ih (resend rpcErr acc p)
    exact ⟨h1, h2, h3, h4⟩

theorem mem_of_getEntry {K V : Type} [DecidableEq K] {k : K} {v : V} {l : List (K × V)}
    (h : getEntry k l = some v) : (k, v) ∈ l := by
  induction l with
  | nil => simp [getEntry] at h
  | cons e t ih =>
    obtain ⟨k', v'⟩ := e
    by_cases h1 : k' = k
    · subst h1
      simp only [getEntry, if_true, Option.some.injEq] at h
      simp [h]
    · simp only [getEntry, h1, if_false] at h
      exact List.mem_cons_of_mem _ (ih h)

theorem getEntry_of_mem {K V : Type} [DecidableEq K] {k : K} {v : V} {l : List (K × V)}
    (hnd : (l.map Prod.fst).Nodup) (h : (k, v) ∈ l) : getEntry k l = some v := by
  induction l with
  | nil => simp at h
  | cons e t ih =>
    obtain ⟨k', v'⟩ := e
    rw [List.map_cons, List.nodup_cons] at hnd
    rcases List.mem_cons.mp h with h1 | h1
    · cases h1
      simp [getEntry]
    · have hk : k ∈ t.map Prod.fst := List.mem_map.mpr ⟨(k, v), h1, rfl⟩
      have hne : ¬ k' = k := fun e => hnd.1 (e ▸ hk)
      simp [getEntry, hne, ih hnd.2 h1]

theorem mem_pairs (l : List (String × GoMap Int Bool)) (n : String) (v : Int) :
    (n, v) ∈ pairs l ↔ ∃ m, (n, m) ∈ l ∧ v ∈ m.keys := by
  induction l with
  | nil => simp [pairs]
  | cons e t ih =>
    obtain ⟨node, updates⟩ := e
    simp only [pairs, List.mem_append, List.mem_map, Prod.mk.injEq, ih, List.mem_cons]
    constructor
    · rintro (⟨u, hu, rfl, rfl⟩ | ⟨m, hm, hv⟩)
      · exact ⟨updates, Or.inl ⟨rfl, rfl⟩, hu⟩
      · exact ⟨m, Or.inr hm, hv⟩
    · rintro ⟨m, (⟨rfl, rfl⟩ | hm), hv⟩
      · exact Or.inl ⟨v, hv, rfl, rfl⟩
      · exact Or.inr ⟨m, hm, hv⟩

theorem nodup_pairs (l : List (String × GoMap Int Bool)) (hnd : (l.map Prod.fst).Nodup) :
    (pairs l).Nodup := by
  induction l with
  | nil => simp [pairs]
  | cons e t ih =>
    obtain ⟨node, updates⟩ := e
    rw [List.map_cons, List.nodup_cons] at hnd
    simp only [pairs]
    rw [List.nodup_append]
    refine ⟨?_, ih hnd.2, ?_⟩
    · exact updates.nodupKeys.map (fun a b h => (Prod.mk.inj h).2)
    · intro p hp hq
      obtain ⟨u, _, rfl⟩ := List.mem_map.mp hp
      obtain ⟨m, hm, _⟩ := (mem_pairs t node u).mp hq
      exact hnd.1 (List.mem_map.mpr ⟨(node, m), hm, rfl⟩)

theorem pending_iff_mem_pairs (s : server) (n : String) (v : Int) :
    pending s n v = true ↔ (n, v) ∈ pairs s.missedUpdates.entries := by
  rw [mem_pairs]
  unfold pending
  constructor
  · intro h
    cases hget : s.missedUpdates.get n with
    | none => simp [hget, GoMap.contains] at h
    | some m =>
      rw [hget] at h
      exact ⟨m, mem_of_getEntry hget, (GoMap.contains_iff_mem_keys m v).mp h⟩
  · rintro ⟨m, hm, hv⟩
    have hget : s.missedUpdates.get n = some m := getEntry_of_mem s.missedUpdates.nodupKeys hm
    rw [hget]
    exact (GoMap.contains_iff_mem_keys m v).mpr hv

theorem stored_of_flagsTrue (mu : GoMap String (GoMap Int Bool)) (h : flagsTrue mu = true)
    (n : String) (m : GoMap Int Bool) (hn : mu.get n = some m) (v : Int) (b : Bool)
    (hv : m.get v = some b) : b = true := by
  unfold flagsTrue at h
  rw [List.all_eq_true] at h
  have h1 := h (n, m) (mem_of_getEntry hn)
  rw [List.all_eq_true] at h1
  exact h1 (v, b) (mem_of_getEntry hv)

theorem count_of_nodup_mem {α : Type} [BEq α] [LawfulBEq α] (a : α) (l : List α)
    (hnd : l.Nodup) (h : a ∈ l) : l.count a = 1 := by
  induction l with
  | nil => simp at h
  | cons b t ih =>
    rw [List.nodup_cons] at hnd
    rw [List.count_cons]
    rcases List.mem_cons.mp h with h1 | h1
    · subst h1
      simp [List.count_eq_zero_of_not_mem hnd.1]
    · have hne : ¬ b = a := fun e => hnd.1 (e ▸ h1)
      simp [ih hnd.2 h1, hne]

theorem count_requests_tick (s : server) (rpcErr : String → Int → Option String)
    (n : String) (v : Int) :
    (requests (GossipMissedUpdates s rpcErr).effects).count (n, v) =
      if pending s n v = true then 1 else 0 := by
  have hreq : requests (GossipMissedUpdates s rpcErr).effects = pairs s.missedUpdates.entries := by
    simp only [GossipMissedUpdates, gossipNodes_eq_foldl, requests_foldl_resend]
    simp [requests]
  rw [hreq]
  by_cases h : pending s n v = true
  · rw [if_pos h]
    exact count_of_nodup_mem _ _ (nodup_pairs _ s.missedUpdates.nodupKeys)
      ((pending_iff_mem_pairs s n v).mp h)
  · rw [if_neg h]
    exact List.count_eq_zero_of_not_mem (fun hm => h ((pending_iff_mem_pairs s n v).mpr hm))

theorem HandleBroadcastOk_of_not_pending (s : server) (n : String) (v : Int)
    (h : pending s n v = false) : HandleBroadcastOk s n v = s := by
  unfold HandleBroadcastOk
  cases hget : s.missedUpdates.get n with
  | none => rfl
  | some m =>
    by_cases hl : m.len = 0
    · simp [hl]
    · have hv : m.get v = none := by
        unfold pending at h
        rw [hget] at h
        simpa [GoMap.contains] using h
      simp only [hl, if_false]
      rw [GoMap.delete_of_get_none hv, GoMap.set_of_get hget]

theorem HandleBroadcastOk_fields (s : server) (n : String) (v : Int) :
    (HandleBroadcastOk s n v).messages = s.messages ∧
    (HandleBroadcastOk s n v).seen = s.seen ∧
    (HandleBroadcastOk s n v).topology = s.topology ∧
    (HandleBroadcastOk s n v).id = s.id := by
  unfold HandleBroadcastOk
  cases s.missedUpdates.get n with
  | none => simp
  | some m => by_cases hl : m.len = 0 <;> simp [hl]

theorem tick_state_eq_foldl (s : server) (rpcErr : String → Int → Option String) :
    (GossipMissedUpdates s rpcErr).state =
      ((pairs s.missedUpdates.entries).foldl (resend rpcErr) (s, [])).1 := by
  simp only [GossipMissedUpdates, gossipNodes_eq_foldl]

theorem pending_tick (s : server) (rpcErr : String → Int → Option String) (n : String) (v : Int) :
    pending (GossipMissedUpdates s rpcErr).state n v = pending s n v := by
  rw [tick_state_eq_foldl]
  exact pending_foldl_resend rpcErr _ (s, [])
    (fun p hp => (pending_iff_mem_pairs s p.1 p.2).mpr hp) n v

theorem tick_state_of_flagsTrue (s : server) (rpcErr : String → Int → Option String)
    (h : flagsTrue s.missedUpdates = true) : (GossipMissedUpdates s rpcErr).state = s := by
  rw [tick_state_eq_foldl]
  apply state_foldl_resend rpcErr _ (s, [])
  intro p hp
  obtain ⟨m, hm, hv⟩ := (mem_pairs _ p.1 p.2).mp hp
  have hn : s.missedUpdates.get p.1 = some m := getEntry_of_mem s.missedUpdates.nodupKeys hm
  have hc : (m.get p.2).isSome = true := (GoMap.contains_iff_mem_keys m p.2).mpr hv
  obtain ⟨b, hb⟩ := Option.isSome_iff_exists.mp hc
  have hbt : b = true := stored_of_flagsTrue _ h p.1 m hn p.2 b hb
  exact ⟨m, hn, hbt ▸ hb⟩

/-! ## Facts about the handlers -/

theorem fanOut_eq_filter_map (src : String) (message : Int) (dests : List String) :
    fanOut src message dests =
      (dests.filter (fun d => decide (d ≠ src))).map (fun d => Effect.goGossip d message) := by
  induction dests with
  | nil => rfl
  | cons d t ih =>
    by_cases h : d = src
    · simp [fanOut, h, ih]
    · simp [fanOut, h, ih]

theorem set_seen_of_flag {m : GoMap Int Bool} {v : Int} (h : flag m v = true) :
    m.set v true = m := by
  apply GoMap.set_of_get
  unfold flag at h
  cases hg : m.get v with
  | none => simp [hg] at h
  | some b => simp [hg] at h; rw [h]

theorem flag_set (m : GoMap Int Bool) (v w : Int) :
    flag (m.set v true) w = (decide (w = v) || flag m w) := by
  unfold flag
  rw [GoMap.get_set]
  by_cases h : w = v <;> simp [h]

theorem logInv_newServer (id : String) : logInv (newServer id) := by
  refine ⟨List.nodup_nil, ?_⟩
  intro v
  simp [newServer, flag]

theorem HandleBroadcast_seen (s : server) (msg : Message) (v : Int)
    (hbody : msg.asBroadcast = some ⟨v⟩) :
    (HandleBroadcast s msg).state.seen = s.seen.set v true := by
  unfold HandleBroadcast
  by_cases hs : flag s.seen v = true <;> simp [hbody, hs]

theorem HandleBroadcast_messages (s : server) (msg : Message) (v : Int)
    (hbody : msg.asBroadcast = some ⟨v⟩) :
    (HandleBroadcast s msg).state.messages =
      if flag s.seen v = true then s.messages else s.messages ++ [v] := by
  unfold HandleBroadcast
  by_cases hs : flag s.seen v = true <;> simp [hbody, hs]

theorem HandleBroadcast_undecodable (s : server) (msg : Message) (hbody : msg.asBroadcast = none) :
    (HandleBroadcast s msg).state = s := by
  simp [HandleBroadcast, hbody]

theorem HandleBroadcast_reply (s : server) (msg : Message) (v : Int)
    (hbody : msg.asBroadcast = some ⟨v⟩) :
    (HandleBroadcast s msg).effects.getLast? = some (Effect.Reply msg.Src "broadcast_ok" none) := by
  unfold HandleBroadcast
  by_cases hs : flag s.seen v = true <;> simp [hbody, hs]

theorem logInv_HandleBroadcast (s : server) (msg : Message) (h : logInv s) :
    logInv (HandleBroadcast s msg).state := by
  cases hbody : msg.asBroadcast with
  | none => rw [HandleBroadcast_undecodable s msg hbody]; exact h
  | some b =>
    obtain ⟨v⟩ := b
    obtain ⟨hnd, hiff⟩ := h
    unfold logInv
    rw [HandleBroadcast_seen s msg v hbody, HandleBroadcast_messages s msg v hbody]
    by_cases hs : flag s.seen v = true
    · rw [if_pos hs]
      refine ⟨hnd, ?_⟩
      intro w
      rw [flag_set, hiff]
      by_cases hw : w = v
      · subst hw; simp [hs]
      · simp [hw]
    · rw [if_neg hs]
      have hv : v ∉ s.messages := fun hm => hs ((hiff v).mp hm)
      refine ⟨?_, ?_⟩
      · rw [List.nodup_append]
        refine ⟨hnd, List.nodup_singleton v, ?_⟩
        intro a ha hb
        rw [List.mem_singleton] at hb
        exact hv (hb ▸ ha)
      · intro w
        rw [flag_set, List.mem_append, List.mem_singleton, hiff]
        by_cases hw : w = v <;> simp [hw]

theorem step_log_of_not_broadcast (s : server) (st : Step)
    (hst : ∀ msg, st ≠ Step.handleBroadcast msg) :
    (step s st).messages = s.messages ∧ (step s st).seen = s.seen := by
  cases st with
  | handleBroadcast msg => exact absurd rfl (hst msg)
  | handleRead msg => exact ⟨rfl, rfl⟩
  | handleTopology msg =>
    simp only [step, HandleTopology]
    cases msg.asTopology <;> exact ⟨rfl, rfl⟩
  | gossip destination message rpcErr => exact ⟨rfl, rfl⟩
  | gossipResponse value msg =>
    simp only [step, GossipResponse]
    by_cases ht : msg.type = "broadcast_ok"
    · simp only [ht, ne_eq, not_true_eq_false, if_false]
      exact ⟨(HandleBroadcastOk_fields s msg.Src value).1,
        (HandleBroadcastOk_fields s msg.Src value).2.1⟩
    · simp [ht]
  | handleBroadcastOk node message =>
    exact ⟨(HandleBroadcastOk_fields s node message).1, (HandleBroadcastOk_fields s node message).2.1⟩
  | gossipMissedUpdates rpcErr =>
    simp only [step]
    rw [tick_state_eq_foldl]
    exact ⟨(fields_foldl_resend rpcErr _ (s, [])).1, (fields_foldl_resend rpcErr _ (s, [])).2.1⟩

theorem logInv_step (s : server) (st : Step) (h : logInv s) : logInv (step s st) := by
  by_cases hb : ∃ msg, st = Step.handleBroadcast msg
  · obtain ⟨msg, rfl⟩ := hb
    exact logInv_HandleBroadcast s msg h
  · have hst : ∀ msg, st ≠ Step.handleBroadcast msg := fun msg e => hb ⟨msg, e⟩
    obtain ⟨hm, hs⟩ := step_log_of_not_broadcast s st hst
    unfold logInv
    rw [hm, hs]
    exact h

theorem flag_seen_step (s : server) (st : Step) (v : Int) (h : flag s.seen v = true) :
    flag (step s st).seen v = true := by
  by_cases hb : ∃ msg, st = Step.handleBroadcast msg
  · obtain ⟨msg, rfl⟩ := hb
    simp only [step]
    cases hbody : msg.asBroadcast with
    | none => rw [HandleBroadcast_undecodable s msg hbody]; exact h
    | some b =>
      obtain ⟨w⟩ := b
      rw [HandleBroadcast_seen s msg w hbody, flag_set, h]
      simp
  · have hst : ∀ msg, st ≠ Step.handleBroadcast msg := fun msg e => hb ⟨msg, e⟩
    rw [(step_log_of_not_broadcast s st hst).2]
    exact h

theorem logInv_run (steps : List Step) (s : server) (h : logInv s) : logInv (run s steps) := by
  induction steps generalizing s with
  | nil => exact h
  | cons st rest ih => exact ih (step s st) (logInv_step s st h)

theorem flag_seen_run (steps : List Step) (s : server) (v : Int) (h : flag s.seen v = true) :
    flag (run s steps).seen v = true := by
  induction steps generalizing s with
  | nil => exact h
  | cons st rest ih => exact ih (step s st) (flag_seen_step s st v h)

theorem count_eq_one_of_logInv (s : server) (v : Int) (h : logInv s)
    (hv : flag s.seen v = true) : s.messages.count v = 1 :=
  count_of_nodup_mem v s.messages h.1 ((h.2 v).mpr hv)

theorem flagsTrue_iff (mu : GoMap String (GoMap Int Bool)) :
    flagsTrue mu = true ↔
      ∀ n m, mu.get n = some m → ∀ v b, m.get v = some b → b = true := by
  constructor
  · exact stored_of_flagsTrue mu
  · intro h
    unfold flagsTrue
    rw [List.all_eq_true]
    rintro ⟨n, m⟩ hnm
    rw [List.all_eq_true]
    rintro ⟨v, b⟩ hvb
    exact h n m (getEntry_of_mem mu.nodupKeys hnm) v b (getEntry_of_mem m.nodupKeys hvb)

theorem flagsTrue_Gossip (s : server) (n : String) (v : Int) (e : Option String)
    (h : flagsTrue s.missedUpdates = true) :
    flagsTrue (Gossip s n v e).state.missedUpdates = true := by
  rw [flagsTrue_iff] at h ⊢
  intro n' m hm v' b hb
  rw [Gossip_missedUpdates_get] at hm
  by_cases hn : n' = n
  · subst hn
    simp only [if_true, Option.some.injEq] at hm
    subst hm
    rw [GoMap.get_set] at hb
    by_cases hv : v' = v
    · simp only [hv, if_true, Option.some.injEq] at hb
      exact hb.symm
    · simp only [hv, if_false] at hb
      cases hget : s.missedUpdates.get n' with
      | none => simp [hget] at hb
      | some m0 =>
        rw [hget] at hb
        exact h n' m0 hget v' b hb
  · simp only [hn, if_false] at hm
    exact h n' m hm v' b hb

theorem flagsTrue_HandleBroadcastOk (s : server) (n : String) (v : Int)
    (h : flagsTrue s.missedUpdates = true) :
    flagsTrue (HandleBroadcastOk s n v).missedUpdates = true := by
  rw [flagsTrue_iff] at h ⊢
  intro n' m hm v' b hb
  rw [HandleBroadcastOk_missedUpdates_get] at hm
  by_cases hn : n' = n
  · subst hn
    simp only [if_true] at hm
    cases hget : s.missedUpdates.get n' with
    | none => simp [hget] at hm
    | some m0 =>
      simp only [hget, Option.map_some', Option.some.injEq] at hm
      subst hm
      rw [GoMap.get_delete] at hb
      by_cases hv : v' = v
      · simp [hv] at hb
      · simp only [hv, if_false] at hb
        exact h n' m0 hget v' b hb
  · simp only [hn, if_false] at hm
    exact h n' m hm v' b hb

theorem flagsTrue_foldl_resend (rpcErr : String → Int → Option String)
    (l : List (String × Int)) (acc : server × List Effect)
    (h : flagsTrue acc.1.missedUpdates = true) :
    flagsTrue (l.foldl (resend rpcErr) acc).1.missedUpdates = true := by
  induction l generalizing acc with
  | nil => exact h
  | cons p t ih =>
    simp only [List.foldl_cons]
    exact ih _ (flagsTrue_Gossip acc.1 p.1 p.2 (rpcErr p.1 p.2) h)

theorem flagsTrue_step (s : server) (st : Step) (h : flagsTrue s.missedUpdates = true) :
    flagsTrue (step s st).missedUpdates = true := by
  cases st with
  | handleBroadcast msg =>
    have hmu : (HandleBroadcast s msg).state.missedUpdates = s.missedUpdates := by
      unfold HandleBroadcast
      cases msg.asBroadcast with
      | none => rfl
      | some b => by_cases hs : flag s.seen b.Message = true <;> simp [hs]
    simpa [step, hmu] using h
  | handleRead msg => exact h
  | handleTopology msg =>
    have hmu : (HandleTopology s msg).state.missedUpdates = s.missedUpdates := by
      unfold HandleTopology
      cases msg.asTopology <;> rfl
    simpa [step, hmu] using h
  | gossip destination message rpcErr => exact flagsTrue_Gossip s destination message rpcErr h
  | gossipResponse value msg =>
    simp only [step, GossipResponse]
    by_cases ht : msg.type = "broadcast_ok"
    · simp only [ht, ne_eq, not_true_eq_false, if_false]
      exact flagsTrue_HandleBroadcastOk s msg.Src value h
    · simpa [ht] using h
  | handleBroadcastOk node message => exact flagsTrue_HandleBroadcastOk s node message h
  | gossipMissedUpdates rpcErr =>
    simp only [step]
    rw [tick_state_eq_foldl]
    exact flagsTrue_foldl_resend rpcErr _ (s, []) h

/-- Every state the server reaches from the one built in `main` stores only
`true` flags in its pending table. -/
theorem flagsTrue_run (id : String) (steps : List Step) :
    flagsTrue (run (newServer id) steps).missedUpdates = true := by
  have gen : ∀ (steps : List Step) (s : server), flagsTrue s.missedUpdates = true →
      flagsTrue (run s steps).missedUpdates = true := by
    intro steps
    induction steps with
    | nil => intro s h; exact h
    | cons st rest ih => intro s h; exact ih (step s st) (flagsTrue_step s st h)
  exact gen steps (newServer id) rfl

theorem Gossip_lockDiscipline (s : server) (destination : String) :
    lockHeldThroughout false (GossipAccesses s destination) = true := by
  unfold GossipAccesses
  cases s.missedUpdates.get destination <;> rfl

theorem HandleBroadcastOk_lockDiscipline (s : server) (node : String) :
    lockHeldThroughout false (HandleBroadcastOkAccesses s node) = true := by
  unfold HandleBroadcastOkAccesses
  cases s.missedUpdates.get node with
  | none => rfl
  | some m => by_cases h : m.len = 0 <;> simp [h, lockHeldThroughout, guarded]

/-! ## Facts about the retry tick -/

theorem keys_setEntry_of_mem {K V : Type} [DecidableEq K] (k : K) (v : V) (l : List (K × V))
    (h : k ∈ l.map Prod.fst) : (setEntry k v l).map Prod.fst = l.map Prod.fst := by
  induction l with
  | nil => simp at h
  | cons e t ih =>
    obtain ⟨k', v'⟩ := e
    by_cases h1 : k' = k
    · subst h1; simp [setEntry]
    · have h2 : k ∈ t.map Prod.fst := by
        rcases List.mem_cons.mp h with h3 | h3
        · exact absurd h3.symm h1
        · exact h3
      simp [setEntry, h1, ih h2]

theorem shape_setEntry (n : String) (m m' : GoMap Int Bool) (l : List (String × GoMap Int Bool))
    (hget : getEntry n l = some m) (hkeys : m'.keys = m.keys) :
    (setEntry n m' l).map (fun e => (e.1, e.2.keys)) = l.map (fun e => (e.1, e.2.keys)) := by
  induction l with
  | nil => simp [getEntry] at hget
  | cons e t ih =>
    obtain ⟨k', v'⟩ := e
    by_cases h1 : k' = n
    · subst h1
      simp only [getEntry, if_true, Option.some.injEq] at hget
      subst hget
      simp [setEntry, hkeys]
    · simp only [getEntry, h1, if_false] at hget
      simp [setEntry, h1, ih hget]

theorem shape_Gossip (s : server) (n : String) (v : Int) (e : Option String)
    (h : pending s n v = true) :
    shape (Gossip s n v e).state.missedUpdates = shape s.missedUpdates := by
  unfold pending at h
  cases hget : s.missedUpdates.get n with
  | none => simp [hget, GoMap.contains] at h
  | some m =>
    rw [hget] at h
    have hv : v ∈ m.keys := (GoMap.contains_iff_mem_keys m v).mp h
    unfold Gossip shape
    simp only [hget, Option.getD_some]
    exact shape_setEntry n m (m.set v true) s.missedUpdates.entries hget
      (keys_setEntry_of_mem v true m.entries hv)

theorem shape_foldl_resend (rpcErr : String → Int → Option String)
    (l : List (String × Int)) (acc : server × List Effect)
    (hl : ∀ p ∈ l, pending acc.1 p.1 p.2 = true) :
    shape (l.foldl (resend rpcErr) acc).1.missedUpdates = shape acc.1.missedUpdates := by
  induction l generalizing acc with
  | nil => rfl
  | cons p t ih =>
    have hp : pending acc.1 p.1 p.2 = true := hl p (List.mem_cons_self _ _)
    have key : ∀ n' v', pending (resend rpcErr acc p).1 n' v' = pending acc.1 n' v' := by
      intro n' v'
      simp only [resend, pending_Gossip]
      by_cases h : n' = p.1 ∧ v' = p.2
      · obtain ⟨h1, h2⟩ := h
        subst h1 h2
        simp [hp]
      · simp [h]
    simp only [List.foldl_cons]
    rw [ih]
    · exact shape_Gossip acc.1 p.1 p.2 (rpcErr p.1 p.2) hp
    · intro q hq
      rw [key]
      exact hl q (List.mem_cons_of_mem _ hq)

theorem shape_tick (s : server) (rpcErr : String → Int → Option String) :
    shape (GossipMissedUpdates s rpcErr).state.missedUpdates = shape s.missedUpdates := by
  rw [tick_state_eq_foldl]
  exact shape_foldl_resend rpcErr _ (s, [])
    (fun p hp => (pending_iff_mem_pairs s p.1 p.2).mpr hp)

/-! ## The properties -/

/-- C1: start from the server built in `main` and run any calls one at a time;
let `HandleBroadcast` run twice with bodies that decode to `v`, from any two
sources, with any calls before, between and after.  Both calls reply with a
body of type `broadcast_ok`, and `messages` contains `v` exactly once after
the first call, after the second call and at the end. -/
theorem broadcast_twice_logged_once (id : String) (before between after : List Step)
    (first second : Message) (v : Int)
    (hfirst : first.asBroadcast = some ⟨v⟩) (hsecond : second.asBroadcast = some ⟨v⟩) :
    (HandleBroadcast (run (newServer id) before) first).effects.getLast? =
      some (Effect.Reply first.Src "broadcast_ok" none) ∧
    (HandleBroadcast (run (HandleBroadcast (run (newServer id) before) first).state between)
      second).effects.getLast? = some (Effect.Reply second.Src "broadcast_ok" none) ∧
    (HandleBroadcast (run (newServer id) before) first).state.messages.count v = 1 ∧
    (HandleBroadcast (run (HandleBroadcast (run (newServer id) before) first).state between)
      second).state.messages.count v = 1 ∧
    (run (HandleBroadcast (run (HandleBroadcast (run (newServer id) before) first).state between)
      second).state after).messages.count v = 1 := by
  have h0 : logInv (run (newServer id) before) := logInv_run before _ (logInv_newServer id)
  have h1 : logInv (HandleBroadcast (run (newServer id) before) first).state :=
    logInv_HandleBroadcast _ first h0
  have f1 : flag (HandleBroadcast (run (newServer id) before) first).state.seen v = true := by
    rw [HandleBroadcast_seen _ first v hfirst, flag_set]; simp
  have h2 := logInv_run between _ h1
  have h3 := logInv_HandleBroadcast _ second h2
  have f3 : flag (HandleBroadcast
      (run (HandleBroadcast (run (newServer id) before) first).state between)
      second).state.seen v = true := by
    rw [HandleBroadcast_seen _ second v hsecond, flag_set]; simp
  exact ⟨HandleBroadcast_reply _ first v hfirst, HandleBroadcast_reply _ second v hsecond,
    count_eq_one_of_logInv _ v h1 f1, count_eq_one_of_logInv _ v h3 f3,
    count_eq_one_of_logInv _ v (logInv_run after _ h3) (flag_seen_run after _ v f3)⟩

/-- Witness for C1: node A with neighbors B and C gets 42 from a client, runs
the two gossip calls, gets 42 again from D, and is read. -/
theorem broadcast_twice_logged_once_witness :
    (run (HandleBroadcast (run (HandleBroadcast
        (run (newServer "A")
          [Step.handleTopology ⟨"c0", "topology", none, some (GoMap.empty.set "A" ["B", "C"])⟩])
        ⟨"c1", "broadcast", some ⟨42⟩, none⟩).state
        [Step.gossip "B" 42 none, Step.gossip "C" 42 none])
        ⟨"D", "broadcast", some ⟨42⟩, none⟩).state
      [Step.handleRead ⟨"c2", "read", none, none⟩]).messages.count 42 = 1 :=
  (broadcast_twice_logged_once "A"
    [Step.handleTopology ⟨"c0", "topology", none, some (GoMap.empty.set "A" ["B", "C"])⟩]
    [Step.gossip "B" 42 none, Step.gossip "C" 42 none]
    [Step.handleRead ⟨"c2", "read", none, none⟩]
    ⟨"c1", "broadcast", some ⟨42⟩, none⟩ ⟨"D", "broadcast", some ⟨42⟩, none⟩ 42 rfl rfl).2.2.2.2

/-- C2: when `v` is already in `seen`, `HandleBroadcast` carrying `v` replies
`broadcast_ok` and does nothing else: the state (`messages`, `seen`,
`topology`, `missedUpdates`) is unchanged, and the reply is the only effect,
so no `Gossip` call is started and no outbound request is issued. -/
theorem HandleBroadcast_duplicate (s : server) (msg : Message) (v : Int)
    (hbody : msg.asBroadcast = some ⟨v⟩) (hseen : flag s.seen v = true) :
    (HandleBroadcast s msg).state = s ∧
    (HandleBroadcast s msg).effects = [Effect.Reply msg.Src "broadcast_ok" none] ∧
    (HandleBroadcast s msg).ret = Return.replyResult := by
  unfold HandleBroadcast
  simp only [hbody, hseen, beq_self_eq_true, if_true, set_seen_of_flag hseen, and_self, and_true]

/-- Witness for C2: node A, neighbors B and C, has seen 42; D sends it again. -/
theorem HandleBroadcast_duplicate_witness :
    (HandleBroadcast
      (HandleBroadcast { newServer "A" with topology := GoMap.empty.set "A" ["B", "C"] }
        ⟨"c1", "broadcast", some ⟨42⟩, none⟩).state
      ⟨"D", "broadcast", some ⟨42⟩, none⟩).effects = [Effect.Reply "D" "broadcast_ok" none] :=
  (HandleBroadcast_duplicate
    (HandleBroadcast { newServer "A" with topology := GoMap.empty.set "A" ["B", "C"] }
      ⟨"c1", "broadcast", some ⟨42⟩, none⟩).state
    ⟨"D", "broadcast", some ⟨42⟩, none⟩ 42 rfl (by decide)).2.1

/-- C3: for a value `v` not yet in `seen` and a sender `src`, `HandleBroadcast`
starts `Gossip(d, v)` for the entries `d` of `topology[own id]` with
`d ≠ src`, one call per occurrence and in list order, then replies; it starts
no other call, so `src` is never a fan-out target and no other value is
gossiped. -/
theorem HandleBroadcast_fanOut_excludes_sender (s : server) (msg : Message) (v : Int)
    (hbody : msg.asBroadcast = some ⟨v⟩) (hnew : flag s.seen v = false) :
    (HandleBroadcast s msg).effects =
      ((neighbors s.topology s.id).filter (fun d => decide (d ≠ msg.Src))).map
        (fun d => Effect.goGossip d v) ++ [Effect.Reply msg.Src "broadcast_ok" none] ∧
    (∀ d w, Effect.goGossip d w ∈ (HandleBroadcast s msg).effects →
      d ≠ msg.Src ∧ w = v ∧ d ∈ neighbors s.topology s.id) ∧
    (∀ d, d ∈ neighbors s.topology s.id → d ≠ msg.Src →
      Effect.goGossip d v ∈ (HandleBroadcast s msg).effects) ∧
    (∀ w, Effect.goGossip msg.Src w ∉ (HandleBroadcast s msg).effects) := by
  have heff : (HandleBroadcast s msg).effects =
      ((neighbors s.topology s.id).filter (fun d => decide (d ≠ msg.Src))).map
        (fun d => Effect.goGossip d v) ++ [Effect.Reply msg.Src "broadcast_ok" none] := by
    unfold HandleBroadcast
    simp only [hbody, hnew, fanOut_eq_filter_map]
    rfl
  have hmem : ∀ d w, Effect.goGossip d w ∈ (HandleBroadcast s msg).effects →
      d ≠ msg.Src ∧ w = v ∧ d ∈ neighbors s.topology s.id := by
    intro d w hm
    rw [heff] at hm
    simp only [List.mem_append, List.mem_map, List.mem_filter, List.mem_singleton,
      decide_eq_true_eq] at hm
    rcases hm with ⟨d', ⟨hd, hne⟩, heq⟩ | hm
    · cases heq
      exact ⟨hne, rfl, hd⟩
    · cases hm
  refine ⟨heff, hmem, ?_, ?_⟩
  · intro d hd hne
    rw [heff]
    simp only [List.mem_append, List.mem_map, List.mem_filter, decide_eq_true_eq]
    exact Or.inl ⟨d, ⟨hd, hne⟩, rfl⟩
  · intro w hm
    exact (hmem msg.Src w hm).1 rfl

/-- Witness for C3: node A with neighbors B and C receives a new value from B. -/
theorem HandleBroadcast_fanOut_excludes_sender_witness :
    (HandleBroadcast { newServer "A" with topology := GoMap.empty.set "A" ["B", "C"] }
      ⟨"B", "broadcast", some ⟨42⟩, none⟩).effects =
      [Effect.goGossip "C" 42, Effect.Reply "B" "broadcast_ok" none] :=
  (HandleBroadcast_fanOut_excludes_sender
    { newServer "A" with topology := GoMap.empty.set "A" ["B", "C"] }
    ⟨"B", "broadcast", some ⟨42⟩, none⟩ 42 rfl (by decide)).1

/-- C9: topology replacement is total.  After `HandleTopology` with a decoded
topology `T` the stored topology is `T`, so the neighbor list that fan-out
reads, `topology[own id]`, is `T`'s entry for this node and is empty when `T`
has none, whatever was stored before; the handler replies `topology_ok` and
changes no other field; the next new broadcast fans out over `T`'s entry. -/
theorem HandleTopology_replaces_topology (s : server) (msg : Message) (T : Topology)
    (hbody : msg.asTopology = some T) :
    (HandleTopology s msg).state.topology = T ∧
    neighbors (HandleTopology s msg).state.topology (HandleTopology s msg).state.id =
      (T.get s.id).getD [] ∧
    (T.get s.id = none →
      neighbors (HandleTopology s msg).state.topology (HandleTopology s msg).state.id = []) ∧
    (HandleTopology s msg).effects = [Effect.Reply msg.Src "topology_ok" none] ∧
    (HandleTopology s msg).state = { s with topology := T } ∧
    (∀ (b : Message) (v : Int), b.asBroadcast = some ⟨v⟩ → flag s.seen v = false →
      (HandleBroadcast (HandleTopology s msg).state b).effects =
        fanOut b.Src v ((T.get s.id).getD []) ++ [Effect.Reply b.Src "broadcast_ok" none]) := by
  have hs : (HandleTopology s msg).state = { s with topology := T } := by
    simp [HandleTopology, hbody]
  refine ⟨by rw [hs], by rw [hs]; rfl, ?_, by simp [HandleTopology, hbody], hs, ?_⟩
  · intro hnone
    rw [hs]
    simp [neighbors, hnone]
  · intro b v hb hnew
    rw [hs]
    unfold HandleBroadcast
    simp only [hb, hnew]
    rfl

/-- Witness for C9: a node that had neighbors B and C receives a topology that
gives it the single neighbor D. -/
theorem HandleTopology_replaces_topology_witness :
    neighbors
      (HandleTopology { newServer "A" with topology := GoMap.empty.set "A" ["B", "C"] }
        ⟨"c1", "topology", none, some (GoMap.empty.set "A" ["D"])⟩).state.topology "A" = ["D"] :=
  (HandleTopology_replaces_topology
    { newServer "A" with topology := GoMap.empty.set "A" ["B", "C"] }
    ⟨"c1", "topology", none, some (GoMap.empty.set "A" ["D"])⟩
    (GoMap.empty.set "A" ["D"]) rfl).2.1

/-- C4: after `Gossip(n, v)`, whether or not the RPC send returned an error,
`missedUpdates[n]` contains `v` (stored with flag `true`); after a subsequent
`HandleBroadcastOk(n, v)`, run right away or in any later state, it does not. -/
theorem Gossip_marks_pending_HandleBroadcastOk_clears (s : server) (n : String) (v : Int)
    (rpcErr : Option String) :
    pending (Gossip s n v rpcErr).state n v = true ∧
    ((Gossip s n v rpcErr).state.missedUpdates.get n).bind (fun m => m.get v) = some true ∧
    pending (HandleBroadcastOk (Gossip s n v rpcErr).state n v) n v = false ∧
    ∀ later : server, pending (HandleBroadcastOk later n v) n v = false := by
  refine ⟨?_, ?_, ?_, ?_⟩
  · simp [pending_Gossip]
  · simp [Gossip_missedUpdates_get]
  · simp [pending_HandleBroadcastOk]
  · intro later
    simp [pending_HandleBroadcastOk]

/-- C5: a pending entry leaves the table only through its own acknowledgment:
when `v` is in `missedUpdates[n]`, every single step that is not a
`broadcast_ok` acknowledgment for exactly `(n, v)` leaves `v` in
`missedUpdates[n]`. -/
theorem pending_survives_unless_acked (s : server) (n : String) (v : Int) (st : Step)
    (h : pending s n v = true) (hst : isAckFor n v st = false) :
    pending (step s st) n v = true := by
  cases st with
  | handleBroadcast msg =>
    have hmu : (HandleBroadcast s msg).state.missedUpdates = s.missedUpdates := by
      unfold HandleBroadcast
      cases msg.asBroadcast with
      | none => rfl
      | some b => by_cases hs : flag s.seen b.Message = true <;> simp [hs]
    simpa [step, pending, hmu] using h
  | handleRead msg => exact h
  | handleTopology msg =>
    have hmu : (HandleTopology s msg).state.missedUpdates = s.missedUpdates := by
      unfold HandleTopology
      cases msg.asTopology <;> rfl
    simpa [step, pending, hmu] using h
  | gossip destination message rpcErr => simp [step, pending_Gossip, h]
  | gossipResponse value msg =>
    simp only [step, GossipResponse]
    by_cases ht : msg.type = "broadcast_ok"
    · simp only [isAckFor, ht, true_and, decide_eq_false_iff_not] at hst
      simp only [ht, ne_eq, not_true_eq_false, if_false, pending_HandleBroadcastOk, h,
        Bool.true_and, Bool.not_eq_true', decide_eq_false_iff_not]
      exact fun hc => hst ⟨hc.1.symm, hc.2.symm⟩
    · simpa [ht] using h
  | handleBroadcastOk node message =>
    simp only [isAckFor, decide_eq_false_iff_not] at hst
    simp only [step, pending_HandleBroadcastOk, h, Bool.true_and, Bool.not_eq_true',
      decide_eq_false_iff_not]
    exact fun hc => hst ⟨hc.1.symm, hc.2.symm⟩
  | gossipMissedUpdates rpcErr =>
    simp only [step]
    rw [pending_tick]
    exact h

/-- C6: one retry tick issues an outbound broadcast request to neighbor `n`
carrying `v` exactly once when `v` is in `missedUpdates[n]` at the start of
the tick and not at all otherwise.  The tick leaves the table as it is: the
same pairs are pending afterwards, under the same neighbors and in the same
order, and the whole state is identical when every stored flag is `true`,
which is so in every state the server reaches.  A pair removed by
`HandleBroadcastOk` before the tick is not sent again. -/
theorem GossipMissedUpdates_resends_exactly_pending (s : server)
    (rpcErr : String → Int → Option String) :
    (∀ n v, (requests (GossipMissedUpdates s rpcErr).effects).count (n, v) =
      if pending s n v = true then 1 else 0) ∧
    (∀ n v, pending (GossipMissedUpdates s rpcErr).state n v = pending s n v) ∧
    shape (GossipMissedUpdates s rpcErr).state.missedUpdates = shape s.missedUpdates ∧
    (flagsTrue s.missedUpdates = true → (GossipMissedUpdates s rpcErr).state = s) ∧
    (∀ id steps, (GossipMissedUpdates (run (newServer id) steps) rpcErr).state =
      run (newServer id) steps) ∧
    (∀ n v,
      (requests (GossipMissedUpdates (HandleBroadcastOk s n v) rpcErr).effects).count (n, v) = 0) := by
  refine ⟨count_requests_tick s rpcErr, pending_tick s rpcErr, shape_tick s rpcErr,
    tick_state_of_flagsTrue s rpcErr, ?_, ?_⟩
  · intro id steps
    exact tick_state_of_flagsTrue _ rpcErr (flagsTrue_run id steps)
  · intro n v
    rw [count_requests_tick]
    simp [pending_HandleBroadcastOk]

/-- Witness for C6: node A with `(B, 42)` and `(C, 42)` pending. -/
theorem GossipMissedUpdates_resends_exactly_pending_witness :
    flagsTrue (Gossip (Gossip (newServer "A") "B" 42 none).state "C" 42 none).state.missedUpdates
      = true ∧
    (GossipMissedUpdates (Gossip (Gossip (newServer "A") "B" 42 none).state "C" 42 none).state
      (fun _ _ => none)).state =
      (Gossip (Gossip (newServer "A") "B" 42 none).state "C" 42 none).state :=
  ⟨by decide,
    (GossipMissedUpdates_resends_exactly_pending
      (Gossip (Gossip (newServer "A") "B" 42 none).state "C" 42 none).state
      (fun _ _ => none)).2.2.2.1 (by decide)⟩

/-- Witness for C5: `(B, 42)` is pending and a retry tick runs. -/
theorem pending_survives_unless_acked_witness :
    pending (step (Gossip (newServer "A") "B" 42 none).state
      (Step.gossipMissedUpdates (fun _ _ => none))) "B" 42 = true :=
  pending_survives_unless_acked (Gossip (newServer "A") "B" 42 none).state "B" 42
    (Step.gossipMissedUpdates (fun _ _ => none)) (by decide) (by decide)

/-- C7 as stated fails: the handler registered by `Gossip("n1", 5)` receives a
`broadcast_ok` response whose source is `n2`; `5` stays in `missedUpdates["n1"]`. -/
theorem GossipResponse_other_source_keeps_entry :
    (Gossip (newServer "n0") "n1" 5 none).effects = [Effect.RPC "n1" "broadcast" 5 5] ∧
    pending (GossipResponse 5 (Gossip (newServer "n0") "n1" 5 none).state
      ⟨"n2", "broadcast_ok", none, none⟩).state "n1" 5 = true := by
  decide

/-- C7, amended: the handler that `Gossip(n, v)` registers is bound to the
value `v` only and takes the neighbor from the response.  For a response of
type `broadcast_ok` it runs `HandleBroadcastOk(msg.Src, v)`: it removes `v`
from `missedUpdates[msg.Src]`, hence from `missedUpdates[n]` when the source
of the response is `n`. -/
theorem GossipResponse_removes_from_response_source (s later : server) (n : String) (v : Int)
    (rpcErr : Option String) (msg : Message) (h : msg.type = "broadcast_ok") :
    (Gossip s n v rpcErr).effects.head? = some (Effect.RPC n "broadcast" v v) ∧
    (GossipResponse v later msg).state = HandleBroadcastOk later msg.Src v ∧
    pending (GossipResponse v later msg).state msg.Src v = false ∧
    (msg.Src = n → pending (GossipResponse v later msg).state n v = false) := by
  have hs : (GossipResponse v later msg).state = HandleBroadcastOk later msg.Src v := by
    simp [GossipResponse, h]
  refine ⟨?_, hs, ?_, ?_⟩
  · cases rpcErr <;> rfl
  · rw [hs]; simp [pending_HandleBroadcastOk]
  · intro hsrc
    rw [hs, hsrc]; simp [pending_HandleBroadcastOk]

/-- Witness for C7, amended: the response comes from the neighbor the request
was sent to. -/
theorem GossipResponse_removes_from_response_source_witness :
    pending (GossipResponse 5 (Gossip (newServer "n0") "n1" 5 none).state
      ⟨"n1", "broadcast_ok", none, none⟩).state "n1" 5 = false :=
  (GossipResponse_removes_from_response_source (newServer "n0")
    (Gossip (newServer "n0") "n1" 5 none).state "n1" 5 none
    ⟨"n1", "broadcast_ok", none, none⟩ rfl).2.2.2 rfl

/-- C8: `HandleBroadcastOk` is idempotent: running it twice for `(n, v)` gives
the state that running it once gives; and when `v` is not in
`missedUpdates[n]` (also when `n` has no entry) it leaves the whole state
unchanged.  It has no error result. -/
theorem HandleBroadcastOk_idempotent (s : server) (n : String) (v : Int) :
    HandleBroadcastOk (HandleBroadcastOk s n v) n v = HandleBroadcastOk s n v ∧
    (pending s n v = false → HandleBroadcastOk s n v = s) ∧
    (s.missedUpdates.get n = none → HandleBroadcastOk s n v = s) := by
  refine ⟨?_, HandleBroadcastOk_of_not_pending s n v, ?_⟩
  · apply HandleBroadcastOk_of_not_pending
    simp [pending_HandleBroadcastOk]
  · intro hn
    simp [HandleBroadcastOk, hn]

/-- Witness for C8: an acknowledgment for a neighbor without entry, and one
for a value that is not pending at a neighbor with an entry. -/
theorem HandleBroadcastOk_idempotent_witness :
    HandleBroadcastOk (newServer "A") "B" 42 = newServer "A" ∧
    HandleBroadcastOk (Gossip (newServer "A") "B" 42 none).state "B" 7 =
      (Gossip (newServer "A") "B" 42 none).state :=
  ⟨(HandleBroadcastOk_idempotent (newServer "A") "B" 42).2.2 rfl,
    (HandleBroadcastOk_idempotent (Gossip (newServer "A") "B" 42 none).state "B" 7).2.1
      (by decide)⟩

/-- C10 on the code: a broadcast of a new value appends to `messages` after
`s.mu.Unlock()`, `HandleRead` reads `messages` without the lock, and a retry
tick ranges over `missedUpdates` without the lock. -/
theorem unlocked_accesses :
    HandleBroadcastAccesses (newServer "A") ⟨"c1", "broadcast", some ⟨42⟩, none⟩ =
      [Access.Lock, Access.read Container.seen, Access.write Container.seen, Access.Unlock,
        Access.read Container.messages, Access.write Container.messages,
        Access.read Container.topology] ∧
    lockHeldThroughout false
      (HandleBroadcastAccesses (newServer "A") ⟨"c1", "broadcast", some ⟨42⟩, none⟩) = false ∧
    lockHeldThroughout false HandleReadAccesses = false ∧
    lockHeldThroughout false
      (GossipMissedUpdatesAccesses (Gossip (newServer "A") "B" 42 none).state) = false := by
  decide

end GossipGlomers
